import Mathlib

/-!
Shallow embedding of the Yamb online-game synchronization engine.

Each definition translates one JavaScript function of the repository
(dice.js, columnRules.js, gameSyncService.js, onlineGameService.js and
OnlineGameManager) into Lean; the theorems at the end of the file settle
the specification claims against these definitions.
-/

namespace Yamb

/-! ## Basic data: categories, columns, statuses -/

/-- The thirteen input scoring categories of the rule set
(`categories.filter(c => c.input)` in scoring.js). -/
inductive Category where
  | ones | twos | threes | fours | fives | sixes
  | max | min
  | tris | straight | full | poker | yamb
  deriving DecidableEq, Repr

/-- The four scorecard columns (`columns` in scoring.js). -/
inductive Column where
  | down | up | free | announce
  deriving DecidableEq, Repr

/-- Connection status values stored for players. -/
inductive ConnStatus where
  | connected | disconnected
  deriving DecidableEq, Repr

/-! ## List helpers mirroring the JavaScript array primitives

JavaScript `findIndex`/`indexOf` return `-1` when no element matches; we
model that sentinel with `Option Nat`. -/

/-- JS `Array.prototype.findIndex` (with `-1` rendered as `none`). -/
def findIdxO (p : α → Bool) : List α → Option Nat
  | [] => none
  | x :: xs => if p x then some 0 else (findIdxO p xs).map (· + 1)

/-- JS `Array.prototype.map((value, index) => ...)`, starting at index `n`. -/
def mapWithIndexFrom (f : Nat → α → β) : Nat → List α → List β
  | _, [] => []
  | n, x :: xs => f n x :: mapWithIndexFrom f (n + 1) xs

/-- JS `Array.prototype.map((value, index) => ...)`. -/
def mapWithIndex (f : Nat → α → β) (l : List α) : List β :=
  mapWithIndexFrom f 0 l

theorem length_mapWithIndexFrom (f : Nat → α → β) :
    ∀ (n : Nat) (l : List α), (mapWithIndexFrom f n l).length = l.length := by
  intro n l
  induction l generalizing n with
  | nil => rfl
  | cons x xs ih => simp [mapWithIndexFrom, ih]

theorem getD_mapWithIndexFrom (f : Nat → α → β) (d : β) (d' : α) :
    ∀ (n i : Nat) (l : List α), i < l.length →
      (mapWithIndexFrom f n l).getD i d = f (n + i) (l.getD i d') := by
  intro n i l
  induction l generalizing n i with
  | nil => intro h; exact absurd h (by simp)
  | cons x xs ih =>
    intro h
    cases i with
    | zero => simp [mapWithIndexFrom]
    | succ j =>
      have hj : j < xs.length := by simpa using Nat.lt_of_succ_lt_succ h
      have h2 := ih (n + 1) j hj
      have h3 : n + 1 + j = n + (j + 1) := by omega
      rw [h3] at h2
      simpa [mapWithIndexFrom, List.getD_cons_succ] using h2

theorem length_mapWithIndex (f : Nat → α → β) (l : List α) :
    (mapWithIndex f l).length = l.length :=
  length_mapWithIndexFrom f 0 l

theorem getD_mapWithIndex (f : Nat → α → β) (d : β) (d' : α) (i : Nat) (l : List α)
    (h : i < l.length) : (mapWithIndex f l).getD i d = f i (l.getD i d') := by
  simpa using getD_mapWithIndexFrom f d d' 0 i l h

/-! ## DiceState (dice.js) -/

/-- One entry of the in-turn roll history
(`{ roll, values, locked }` pushed by `rollDiceWithLocked`). -/
structure RollHistEntry where
  roll : Nat
  values : List Nat
  locked : List Bool
  deriving DecidableEq, Repr

/-- The dice state object created by `createDiceState` in dice.js. -/
structure DiceState where
  values : List Nat
  locked : List Bool
  rollsRemaining : Nat
  announced : Option Category
  history : List RollHistEntry
  deriving DecidableEq, Repr

/-- Source `DICE_COUNT` in dice.js. -/
def DICE_COUNT : Nat := 5

/-- Source `createDiceState()` in dice.js. -/
def createDiceState : DiceState :=
  { values := [1, 2, 3, 4, 5]
    locked := [false, false, false, false, false]
    rollsRemaining := 3
    announced := none
    history := [] }

/-- Source `rollDiceWithLocked(state)` in dice.js.  The fresh draws produced by
`rollDie()` for each slot are supplied by the `draw` argument (slot index to
drawn value), making the cryptographic randomness an explicit input. -/
def rollDiceWithLocked (draw : Nat → Nat) (state : DiceState) : DiceState :=
  if state.rollsRemaining = 0 then state
  else
    let newValues :=
      mapWithIndex (fun index value =>
        if state.locked.getD index false then value else draw index) state.values
    { state with
      values := newValues
      rollsRemaining := state.rollsRemaining - 1
      history := state.history ++
        [{ roll := state.rollsRemaining, values := newValues, locked := state.locked }] }

/-- Source `toggleDiceLock(state, index)` in dice.js.  The index is an `Int` to keep
the JavaScript `index < 0` guard meaningful. -/
def toggleDiceLock (state : DiceState) (index : Int) : DiceState :=
  if index < 0 ∨ (DICE_COUNT : Int) ≤ index then state
  else
    let i := index.toNat
    { state with locked := state.locked.set i (!(state.locked.getD i false)) }

/-- Source `VirtualDiceUI.toggleLock(index)` in virtualDiceUI.js: refuses when
controls are disabled or when `rollsRemaining` is 3 (nothing rolled yet) or 0
(rolls exhausted), otherwise delegates to the data-layer `toggleDiceLock`. -/
def uiToggleLock (controlsEnabled : Bool) (state : DiceState) (index : Int) : DiceState :=
  if !controlsEnabled then state
  else if state.rollsRemaining = 3 ∨ state.rollsRemaining = 0 then state
  else toggleDiceLock state index

/-! ## Column rules (columnRules.js) -/

/-- Source `categoryOrder` in columnRules.js: the fixed forward sequence used by the
"down" column (the "up" column uses its reverse). -/
def categoryOrder : List Category :=
  [.ones, .twos, .threes, .fours, .fives, .sixes,
   .max, .min, .tris, .straight, .full, .poker, .yamb]

/-- Source `sequentialOrders` in columnRules.js: only "down" and "up" have a
sequential order. -/
def sequentialOrders (columnKey : Column) : Option (List Category) :=
  match columnKey with
  | .down => some categoryOrder
  | .up => some categoryOrder.reverse
  | _ => none

/-- The per-column portion of a scorecard: a (possibly partial) assignment of
values to categories.  `none` models a key that is absent from the JS object. -/
abbrev ColumnScores : Type := Category → Option Int

/-- A player's full scorecard in the per-column form used by columnRules.js. -/
abbrev Scores : Type := Column → ColumnScores

/-- Source `hasCategoryValue(columnState, categoryKey)` in columnRules.js. -/
def hasCategoryValue (columnState : ColumnScores) (categoryKey : Category) : Bool :=
  (columnState categoryKey).isSome

/-- Source `canFillCategory(columnKey, categoryKey, currentScores, announcement)` in
columnRules.js. -/
def canFillCategory (columnKey : Column) (categoryKey : Category)
    (currentScores : Scores) (announcement : Option Category) : Bool :=
  let columnState := currentScores columnKey
  if hasCategoryValue columnState categoryKey then false
  else if columnKey = .free then true
  else if columnKey = .announce then
    match announcement with
    | some a => categoryKey = a
    | none => true
  else
    match sequentialOrders columnKey with
    | none => true
    | some order =>
      match findIdxO (fun k => k = categoryKey) order with
      | none => false
      | some index =>
        match findIdxO (fun key => !hasCategoryValue columnState key) order with
        | none => false
        | some firstOpenIndex => firstOpenIndex = index

/-- A scorecard with no entries at all. -/
def emptyScores : Scores := fun _ _ => none

/-! ## Flat scorecard rows (the `scorecard` JSON column of `game_state`)

The database stores a flat object keyed by `"<column>_<category>"`; we model
the object as an association list over typed keys. -/

/-- A flat scorecard as stored in the `game_state` row. -/
abbrev Scorecard : Type := List ((Column × Category) × Int)

/-- Key lookup in a flat scorecard (JS `scorecard[key]`, `undefined ↦ none`). -/
def scLookup (sc : Scorecard) (k : Column × Category) : Option Int :=
  match sc with
  | [] => none
  | (k', v) :: rest => if k' = k then some v else scLookup rest k

/-- JS `scorecard[key] = value` on an object without that key: one more entry. -/
def scInsert (sc : Scorecard) (k : Column × Category) (v : Int) : Scorecard :=
  sc ++ [(k, v)]

/-! ## Scoring totals (scoring.js, used by `calculateFinalScore`) -/

/-- Source `upperKeys` in scoring.js. -/
def upperKeys : List Category := [.ones, .twos, .threes, .fours, .fives, .sixes]

/-- Source `lowerScoringKeys` in scoring.js
(`categories.filter(c => c.section === "lower")`). -/
def lowerScoringKeys : List Category := [.tris, .straight, .full, .poker, .yamb]

/-- Source `numericValue` in scoring.js: absent entries count as 0. -/
def numericValue (v : Option Int) : Int := v.getD 0

/-- The derived totals of one column (`computeColumnDerived` in scoring.js). -/
structure ColumnDerived where
  upperSubtotal : Int
  bonus : Int
  upperTotal : Int
  diff : Int
  lowerSubtotal : Int
  grandTotal : Int
  deriving DecidableEq, Repr

/-- Source `computeColumnDerived(columnState)` in scoring.js. -/
def computeColumnDerived (columnState : ColumnScores) : ColumnDerived :=
  let safe := fun k => numericValue (columnState k)
  let upperSubtotal := (upperKeys.map safe).foldl (· + ·) 0
  let bonus : Int := if 60 ≤ upperSubtotal then 30 else 0
  let upperTotal := upperSubtotal + bonus
  let hasMax := (columnState .max).isSome
  let hasMin := (columnState .min).isSome
  let diff : Int :=
    if hasMax && hasMin then (safe .max - safe .min) * safe .ones else 0
  let lowerSubtotal := (lowerScoringKeys.map safe).foldl (· + ·) 0
  { upperSubtotal := upperSubtotal
    bonus := bonus
    upperTotal := upperTotal
    diff := diff
    lowerSubtotal := lowerSubtotal
    grandTotal := upperTotal + diff + lowerSubtotal }

/-- The list of column keys (`columns.map(c => c.key)` in scoring.js). -/
def columnKeys : List Column := [.down, .up, .free, .announce]

/-- Source `OnlineGameManager.convertScorecardToState(scorecard)`: regroup the flat
`"<column>_<category>"` map into per-column objects. -/
def convertScorecardToState (sc : Scorecard) : Scores :=
  fun col cat => scLookup sc (col, cat)

/-- The result of `OnlineGameManager.calculateFinalScore(scorecard)`
(we keep the grand total and the filled-cell count). -/
structure FinalScore where
  total : Int
  filledCells : Nat
  deriving DecidableEq, Repr

/-- Source `OnlineGameManager.calculateFinalScore(scorecard)`: sum of the four
columns' grand totals. -/
def calculateFinalScore (sc : Scorecard) : FinalScore :=
  let normalized := convertScorecardToState sc
  { total :=
      (columnKeys.map (fun col => (computeColumnDerived (normalized col)).grandTotal)).foldl
        (· + ·) 0
    filledCells := sc.length }

/-! ## Turn advance (`syncTurnEnd` in gameSyncService.js) -/

/-- One row of the `players` table as selected by `syncTurnEnd`
(`select("id, player_order") ... order("player_order", ascending)`). -/
structure PlayerRow where
  id : String
  player_order : Nat
  deriving DecidableEq, Repr

/-- The `game_state` reset row written for the next player by `syncTurnEnd`. -/
structure StateResetWrite where
  player_id : String
  dice_values : List Nat
  dice_locked : List Bool
  rolls_remaining : Nat
  deriving DecidableEq, Repr

/-- The pair of writes issued by a successful `syncTurnEnd`. -/
structure TurnEndResult where
  nextPlayerId : String
  currentTurnWrite : String
  stateWrite : StateResetWrite
  deriving DecidableEq, Repr

/-- Source `syncTurnEnd(gameId, currentPlayerId)` in gameSyncService.js.  `players`
is the fetched player list, already ordered ascending by `player_order` as the
query requests; `none` models the thrown error paths (no players / current
player not found). -/
def syncTurnEnd (players : List PlayerRow) (currentPlayerId : String) :
    Option TurnEndResult :=
  if players.isEmpty then none
  else
    match findIdxO (fun p => p.id = currentPlayerId) players with
    | none => none
    | some currentIndex =>
      let nextIndex := (currentIndex + 1) % players.length
      let next := players.getD nextIndex ⟨"", 0⟩
      some
        { nextPlayerId := next.id
          currentTurnWrite := next.id
          stateWrite :=
            { player_id := next.id
              dice_values := [1, 2, 3, 4, 5]
              dice_locked := [false, false, false, false, false]
              rolls_remaining := 3 } }

/-! ## Standings and game completion (OnlineGameManager) -/

/-- One row of `getAllGameStates(gameId)` (a `game_state` row joined with its
player's metadata). -/
structure GState where
  player_id : String
  player_name : String
  player_order : Nat
  scorecard : Scorecard
  deriving DecidableEq, Repr

/-- One entry of the standings built by `buildStandingsFromStates`. -/
structure Standing where
  id : String
  name : String
  total : Int
  deriving DecidableEq, Repr

/-- Stable insertion of one standing into a list already sorted by descending
total: the new element goes after every element whose total is at least as
large.  This is how ECMAScript's stable `Array.prototype.sort` with comparator
`(a, b) => b.total - a.total` orders entries. -/
def insertByTotalDesc (x : Standing) : List Standing → List Standing
  | [] => [x]
  | y :: ys => if y.total < x.total then x :: y :: ys else y :: insertByTotalDesc x ys

/-- Stable sort by descending total
(`standings.sort((a, b) => b.total - a.total)`). -/
def sortByTotalDesc (l : List Standing) : List Standing :=
  l.foldl (fun acc x => insertByTotalDesc x acc) []

/-- The per-state standings entry built inside `buildStandingsFromStates`. -/
def standingOfState (st : GState) : Standing :=
  { id := st.player_id
    name := st.player_name
    total := (calculateFinalScore st.scorecard).total }

/-- Source `OnlineGameManager.buildStandingsFromStates(states)`. -/
def buildStandingsFromStates (states : List GState) : List Standing :=
  sortByTotalDesc (states.map standingOfState)

/-- Source `TOTAL_INPUT_CELLS` in OnlineGameManager:
`columns.length * categories.filter(c => c.input).length = 4 * 13`. -/
def TOTAL_INPUT_CELLS : Nat := columnKeys.length * categoryOrder.length

/-- Source `OnlineGameManager.isGameComplete(scorecard)`: at least
`TOTAL_INPUT_CELLS` keys present. -/
def isGameComplete (sc : Scorecard) : Bool :=
  TOTAL_INPUT_CELLS ≤ sc.length

/-- The one-shot flags of `OnlineGameManager` that guard completion
announcement (`gameCompletionHandled`, `gameResultsShown`). -/
structure MgrFlags where
  gameCompletionHandled : Bool
  gameResultsShown : Bool
  deriving DecidableEq, Repr

/-- A database write issued by the manager. -/
inductive DbWrite where
  | scoreWrite (player : String) (sc : Scorecard)
  | turnAdvance (next : String)
  | stateReset (next : String)
  | completeWrite (winner : String)
  deriving DecidableEq, Repr

/-- Source `OnlineGameManager.showWinnerScreen`: renders the results at most once,
guarded by `gameResultsShown`; returns the new flags and whether the results
were displayed by this call. -/
def showWinnerScreen (m : MgrFlags) (standings : List Standing) : MgrFlags × Bool :=
  if m.gameResultsShown then (m, false)
  else if standings.isEmpty then (m, false)
  else ({ m with gameResultsShown := true }, true)

/-- Source `OnlineGameManager.endGame(allStates)`: guarded by
`gameCompletionHandled`; computes the standings, takes the head as winner,
writes `status = completed` when this client is the winner or the host, and
shows the results.  Returns (new flags, writes, results-displayed). -/
def endGame (m : MgrFlags) (playerId : String) (isHost : Bool)
    (allStates : List GState) : MgrFlags × List DbWrite × Bool :=
  if m.gameCompletionHandled then (m, [], false)
  else
    let m1 := { m with gameCompletionHandled := true }
    let sortedByScore := buildStandingsFromStates allStates
    let winnerId := (sortedByScore.head?).map (fun w => w.id)
    let completeWrites :=
      match winnerId with
      | some wid => if playerId = wid ∨ isHost then [DbWrite.completeWrite wid] else []
      | none => []
    let (m2, shown) := showWinnerScreen m1 sortedByScore
    (m2, completeWrites, shown)

/-- Source `OnlineGameManager.checkGameCompletion()`: no-op when the one-shot flag is
already set; otherwise fetches all states (supplied here as `allStates`) and
calls `endGame` when every player's scorecard is complete. -/
def checkGameCompletion (m : MgrFlags) (playerId : String) (isHost : Bool)
    (allStates : List GState) : MgrFlags × List DbWrite × Bool :=
  if m.gameCompletionHandled then (m, [], false)
  else if allStates.isEmpty then (m, [], false)
  else if allStates.all (fun st => isGameComplete st.scorecard) then
    endGame m playerId isHost allStates
  else (m, [], false)

/-- Run a sequence of completion checks (one per incoming notification, each
against the snapshot it fetched), counting how many of them announced the
completion (issued a `completed` write or displayed the results). -/
def runCompletionChecks (playerId : String) (isHost : Bool) :
    MgrFlags → List (List GState) → MgrFlags × Nat
  | m, [] => (m, 0)
  | m, s :: rest =>
    ((runCompletionChecks playerId isHost (checkGameCompletion m playerId isHost s).1 rest).1,
     (if (checkGameCompletion m playerId isHost s).2.1.isEmpty &&
          !(checkGameCompletion m playerId isHost s).2.2 then 0 else 1) +
       (runCompletionChecks playerId isHost (checkGameCompletion m playerId isHost s).1 rest).2)

/-! ## Score commit (`OnlineGameManager.syncScoreAndEndTurn`) -/

/-- The inputs of one score-commit attempt.  `remoteScorecard` is the snapshot
`getCurrentScorecard()` fetches from the store at the start of the commit;
`localScorecard` is the client's cached copy (which the commit never reads);
`allStates` is the snapshot `checkGameCompletion` would fetch; `players` is
the ordered player list `syncTurnEnd` would fetch. -/
structure CommitCtx where
  playerId : String
  isHost : Bool
  localScorecard : Scorecard
  remoteScorecard : Scorecard
  allStates : List GState
  players : List PlayerRow
  flags : MgrFlags
  deriving Repr

/-- The outcome of one score-commit attempt. -/
structure CommitResult where
  alreadyFilledAlert : Bool
  writes : List DbWrite
  flags : MgrFlags
  deriving Repr

/-- The writes produced by `syncTurnEnd` as seen from the manager. -/
def turnEndWrites (players : List PlayerRow) (currentPlayerId : String) : List DbWrite :=
  match syncTurnEnd players currentPlayerId with
  | none => []
  | some r => [DbWrite.turnAdvance r.currentTurnWrite, DbWrite.stateReset r.stateWrite.player_id]

/-- Source `OnlineGameManager.syncScoreAndEndTurn(category, column, value)`:
re-fetches the scorecard from the store, aborts with the "already filled"
alert (and no write at all) if the key is present in that fresh snapshot,
otherwise writes the extended scorecard, runs the completion check, and —
unless the game just finished — advances the turn. -/
def syncScoreAndEndTurn (ctx : CommitCtx) (category : Category) (column : Column)
    (value : Int) : CommitResult :=
  let scorecard := ctx.remoteScorecard
  let key := (column, category)
  if (scLookup scorecard key).isSome then
    { alreadyFilledAlert := true, writes := [], flags := ctx.flags }
  else
    let scorecard1 := scInsert scorecard key value
    let scoreW := DbWrite.scoreWrite ctx.playerId scorecard1
    if isGameComplete scorecard1 then
      let r := checkGameCompletion ctx.flags ctx.playerId ctx.isHost ctx.allStates
      if r.1.gameCompletionHandled then
        { alreadyFilledAlert := false, writes := scoreW :: r.2.1, flags := r.1 }
      else
        { alreadyFilledAlert := false
          writes := scoreW :: r.2.1 ++ turnEndWrites ctx.players ctx.playerId
          flags := r.1 }
    else
      { alreadyFilledAlert := false
        writes := scoreW :: turnEndWrites ctx.players ctx.playerId
        flags := ctx.flags }

/-! ## Presence verdicts (`OnlineGameManager.applyPresenceStatuses`) -/

/-- One row of `players` as used by the presence loop: the durable connection
status and the parsed `last_seen_at` timestamp (absent when the field is not a
string or does not parse to a finite number). -/
structure PresencePlayer where
  id : String
  connection_status : Option ConnStatus
  last_seen_at : Option Int
  deriving DecidableEq, Repr

/-- The manager fields read by the presence loop. -/
structure PresenceCtx where
  localPlayerId : String
  localConnectionStatus : ConnStatus
  realtimeHealthy : Bool
  presenceDisconnectGraceMs : Int
  connectionStaleThresholdMs : Int
  now : Int
  deriving DecidableEq, Repr

/-- The loop body of `applyPresenceStatuses` for one player: from the presence
id set, the cached status, and the player's `missing since` timestamp, compute
the desired status and the new `missing since` entry.  `cache` is
`presenceStatusCache.get(playerId)`; the cached fallback chain is
`cache ?? player.connection_status ?? "connected"`. -/
def presenceStatusForPlayer (ctx : PresenceCtx) (activeIds : List String)
    (cache : Option ConnStatus) (missingSince : Option Int)
    (player : PresencePlayer) : ConnStatus × Option Int :=
  let cachedPresence := cache.getD (player.connection_status.getD .connected)
  let verdict : ConnStatus × Option Int :=
    if player.id = ctx.localPlayerId then
      (ctx.localConnectionStatus, missingSince)
    else if activeIds.contains player.id then
      (.connected, none)
    else if !ctx.realtimeHealthy then
      (cachedPresence, none)
    else
      let missingStart := missingSince.getD ctx.now
      let missingDuration := ctx.now - missingStart
      let desired : ConnStatus :=
        if ctx.presenceDisconnectGraceMs ≤ missingDuration then .disconnected
        else
          match player.last_seen_at with
          | some lastSeen =>
            if ctx.connectionStaleThresholdMs < ctx.now - lastSeen then .disconnected
            else cachedPresence
          | none => cachedPresence
      (desired, some missingStart)
  if verdict.1 = .connected then (verdict.1, none) else verdict

/-! ## Claim theorems -/

/-- Claim C3: `rollDiceWithLocked` returns the state unchanged when rolls-remaining
is 0; otherwise it decrements rolls-remaining by exactly 1 (never increasing
it), leaves every locked slot's value unchanged, replaces only the unlocked
slots (with the fresh draws), and appends exactly one entry containing the new
dice vector to the in-turn history. -/
theorem C3_roll_spec (draw : Nat → Nat) (s : DiceState) :
    (s.rollsRemaining = 0 → rollDiceWithLocked draw s = s) ∧
    (s.rollsRemaining ≠ 0 →
      (rollDiceWithLocked draw s).rollsRemaining = s.rollsRemaining - 1 ∧
      (rollDiceWithLocked draw s).rollsRemaining < s.rollsRemaining ∧
      (rollDiceWithLocked draw s).values.length = s.values.length ∧
      (∀ i, i < s.values.length → s.locked.getD i false = true →
        (rollDiceWithLocked draw s).values.getD i 0 = s.values.getD i 0) ∧
      (∀ i, i < s.values.length → s.locked.getD i false = false →
        (rollDiceWithLocked draw s).values.getD i 0 = draw i) ∧
      (rollDiceWithLocked draw s).locked = s.locked ∧
      (rollDiceWithLocked draw s).history = s.history ++
        [{ roll := s.rollsRemaining
           values := (rollDiceWithLocked draw s).values
           locked := s.locked }]) := by
  constructor
  · intro h
    simp [rollDiceWithLocked, h]
  · intro h
    have hif : ¬ s.rollsRemaining = 0 := h
    refine ⟨?_, ?_, ?_, ?_, ?_, ?_, ?_⟩
    · simp [rollDiceWithLocked, hif]
    · simp only [rollDiceWithLocked, hif, if_false]
      exact Nat.sub_lt (Nat.pos_of_ne_zero h) Nat.one_pos
    · simp [rollDiceWithLocked, hif, length_mapWithIndex]
    · intro i hi hlock
      simp only [rollDiceWithLocked, hif, if_false]
      rw [getD_mapWithIndex _ 0 0 i s.values hi, hlock]
      simp
    · intro i hi hlock
      simp only [rollDiceWithLocked, hif, if_false]
      rw [getD_mapWithIndex _ 0 0 i s.values hi, hlock]
      simp
    · simp [rollDiceWithLocked, hif]
    · simp [rollDiceWithLocked, hif]

/-- Witness for C3 at a concrete state: two rolls left, third die locked,
draws all equal to 6. -/
theorem C3_roll_spec_witness :
    (let s : DiceState :=
      { values := [1, 2, 3, 4, 5], locked := [false, false, true, false, false]
        rollsRemaining := 2, announced := none, history := [] }
     let draw : Nat → Nat := fun _ => 6
     s.rollsRemaining ≠ 0 ∧
       ((rollDiceWithLocked draw s).rollsRemaining = s.rollsRemaining - 1 ∧
        (rollDiceWithLocked draw s).rollsRemaining < s.rollsRemaining ∧
        (rollDiceWithLocked draw s).values.length = s.values.length ∧
        (∀ i, i < s.values.length → s.locked.getD i false = true →
          (rollDiceWithLocked draw s).values.getD i 0 = s.values.getD i 0) ∧
        (∀ i, i < s.values.length → s.locked.getD i false = false →
          (rollDiceWithLocked draw s).values.getD i 0 = draw i) ∧
        (rollDiceWithLocked draw s).locked = s.locked ∧
        (rollDiceWithLocked draw s).history = s.history ++
          [{ roll := s.rollsRemaining
             values := (rollDiceWithLocked draw s).values
             locked := s.locked }])) :=
  ⟨by decide, (C3_roll_spec (fun _ => 6) _).2 (by decide)⟩

/-- Claim C10: the data-layer `toggleDiceLock` imposes no rolls-remaining
precondition: for any state (including rolls-remaining 3 or 0) and any index
in 0..4 it flips exactly the addressed lock bit and leaves the dice values,
rolls-remaining, announced category and history unchanged; an out-of-range
index returns the state unchanged.  The `0 < rollsRemaining < 3` window is
enforced only by the UI wrapper, which refuses at 3 and 0. -/
theorem C10_toggleLock_spec (s : DiceState) (index : Int)
    (hlen : s.locked.length = DICE_COUNT) :
    (0 ≤ index → index < (DICE_COUNT : Int) →
      (toggleDiceLock s index).locked.getD index.toNat false
          = !(s.locked.getD index.toNat false) ∧
      (∀ j, j ≠ index.toNat →
        (toggleDiceLock s index).locked.getD j false = s.locked.getD j false) ∧
      (toggleDiceLock s index).values = s.values ∧
      (toggleDiceLock s index).rollsRemaining = s.rollsRemaining ∧
      (toggleDiceLock s index).announced = s.announced ∧
      (toggleDiceLock s index).history = s.history) ∧
    (index < 0 ∨ (DICE_COUNT : Int) ≤ index → toggleDiceLock s index = s) ∧
    (∀ enabled, s.rollsRemaining = 3 ∨ s.rollsRemaining = 0 →
      uiToggleLock enabled s index = s) := by
  refine ⟨?_, ?_, ?_⟩
  · intro h0 h5
    have hni : ¬ (index < 0 ∨ (DICE_COUNT : Int) ≤ index) := by
      push_neg
      exact ⟨h0, h5⟩
    have hidx : index.toNat < s.locked.length := by
      rw [hlen]
      have : (index.toNat : Int) = index := Int.toNat_of_nonneg h0
      omega
    refine ⟨?_, ?_, ?_, ?_, ?_, ?_⟩
    · simp only [toggleDiceLock, hni, if_false]
      simp [List.getD, List.getElem?_set_eq_of_lt _ hidx]
    · intro j hj
      simp only [toggleDiceLock, hni, if_false]
      simp [List.getD, List.getElem?_set_ne (Ne.symm hj)]
    · simp [toggleDiceLock, hni]
    · simp [toggleDiceLock, hni]
    · simp [toggleDiceLock, hni]
    · simp [toggleDiceLock, hni]
  · intro h
    simp [toggleDiceLock, h]
  · intro enabled h
    cases enabled with
    | false => simp [uiToggleLock]
    | true =>
      rcases h with h | h
      · simp [uiToggleLock, h]
      · simp [uiToggleLock, h]

/-- Witness for C10 at a concrete state with rolls-remaining 3 (no roll yet):
the data layer still flips the bit, while the UI wrapper refuses. -/
theorem C10_toggleLock_spec_witness :
    (let s : DiceState :=
      { values := [1, 2, 3, 4, 5], locked := [false, false, false, false, false]
        rollsRemaining := 3, announced := none, history := [] }
     s.locked.length = DICE_COUNT ∧
       ((0 : Int) ≤ 2 ∧ (2 : Int) < (DICE_COUNT : Int)) ∧
       (toggleDiceLock s 2).locked.getD (2 : Int).toNat false
          = !(s.locked.getD (2 : Int).toNat false) ∧
       (toggleDiceLock s 2).values = s.values ∧
       uiToggleLock true s 2 = s) := by
  refine ⟨by decide, ⟨by decide, by decide⟩, ?_, ?_, ?_⟩
  · exact (((C10_toggleLock_spec _ 2 (by decide)).1 (by decide) (by decide))).1
  · exact (((C10_toggleLock_spec _ 2 (by decide)).1 (by decide) (by decide))).2.2.1
  · exact ((C10_toggleLock_spec _ 2 (by decide)).2.2 true (Or.inl (by decide)))

/-- Every category occurs in the fixed forward sequence. -/
theorem mem_categoryOrder (c : Category) : c ∈ categoryOrder := by
  cases c <;> decide

/-- The fixed forward sequence has no duplicates. -/
theorem categoryOrder_nodup : categoryOrder.Nodup := by decide

/-- Source `findIdxO` finds nothing exactly when no element satisfies the predicate. -/
theorem findIdxO_eq_none_iff (p : α → Bool) :
    ∀ l : List α, findIdxO p l = none ↔ ∀ x ∈ l, p x = false := by
  intro l
  induction l with
  | nil => simp [findIdxO]
  | cons x xs ih =>
    by_cases hx : p x
    · simp [findIdxO, hx]
    · have hxf : p x = false := by simpa using hx
      have hstep : findIdxO p (x :: xs) = (findIdxO p xs).map (· + 1) := by
        simp [findIdxO, hxf]
      rw [hstep]
      constructor
      · intro h y hy
        rcases List.mem_cons.mp hy with rfl | hy
        · exact hxf
        · exact ih.mp (by simpa using h) y hy
      · intro h
        have : findIdxO p xs = none :=
          ih.mpr fun y hy => h y (List.mem_cons_of_mem x hy)
        simp [this]

/-- The sequential branch of `canFillCategory` (index of the category equals
the index of the first open slot) holds exactly when the category is the first
element of the order without a value.  `p` is the openness predicate. -/
theorem seqBranch_iff {α : Type} [DecidableEq α] (p : α → Bool) (cat : α) :
    ∀ (order : List α), order.Nodup → cat ∈ order →
      (((match findIdxO (fun k => (decide (k = cat))) order with
        | none => false
        | some index =>
          match findIdxO p order with
          | none => false
          | some firstOpenIndex => decide (firstOpenIndex = index)) : Bool) = true
       ↔ order.find? p = some cat) := by
  intro order
  induction order with
  | nil => intro _ h; exact absurd h (by simp)
  | cons h t ih =>
    intro hnd hmem
    have hndt : t.Nodup := (List.nodup_cons.mp hnd).2
    have hnotmem : h ∉ t := (List.nodup_cons.mp hnd).1
    by_cases hcat : h = cat
    · have hc : findIdxO (fun k => decide (k = cat)) (h :: t) = some 0 := by
        simp [findIdxO, hcat]
      by_cases hp : p h
      · have ho : findIdxO p (h :: t) = some 0 := by simp [findIdxO, hp]
        rw [hc, ho, List.find?_cons_of_pos _ hp]
        simp [hcat]
      · have hpf : p h = false := by simpa using hp
        have ho : findIdxO p (h :: t) = (findIdxO p t).map (· + 1) := by
          simp [findIdxO, hpf]
        rw [hc, ho, List.find?_cons_of_neg _ hp]
        constructor
        · intro hcontra
          cases hq : findIdxO p t with
          | none => rw [hq] at hcontra; simp at hcontra
          | some j => rw [hq] at hcontra; simp at hcontra
        · intro hfind
          exact absurd (by rw [hcat]; exact List.mem_of_find?_eq_some hfind) hnotmem
    · have hmemt : cat ∈ t := by
        rcases List.mem_cons.mp hmem with h1 | h1
        · exact absurd h1.symm hcat
        · exact h1
      have hc : findIdxO (fun k => decide (k = cat)) (h :: t) =
          (findIdxO (fun k => decide (k = cat)) t).map (· + 1) := by
        simp [findIdxO, hcat]
      by_cases hp : p h
      · -- the first slot is open but carries a different category
        have ho : findIdxO p (h :: t) = some 0 := by simp [findIdxO, hp]
        rw [hc, ho, List.find?_cons_of_pos _ hp]
        cases hci : findIdxO (fun k => decide (k = cat)) t with
        | none =>
          exfalso
          have := (findIdxO_eq_none_iff _ t).mp hci cat hmemt
          simp at this
        | some i =>
          constructor
          · intro hcontra; simp at hcontra
          · intro hfind
            have : h = cat := by simpa using hfind
            exact absurd this hcat
      · have hpf : p h = false := by simpa using hp
        have ho : findIdxO p (h :: t) = (findIdxO p t).map (· + 1) := by
          simp [findIdxO, hpf]
        rw [hc, ho, List.find?_cons_of_neg _ hp, ← ih hndt hmemt]
        cases findIdxO (fun k => decide (k = cat)) t with
        | none => simp
        | some i =>
          cases findIdxO p t with
          | none => simp
          | some j => simp

/-- Claim C4 counterexample: with no outstanding announcement, `canFillCategory`
allows filling the announce column ("ones" on an empty scorecard is
fillable), contradicting the claim that no announce cell is fillable without
a prior announcement. -/
theorem C4_counterexample :
    canFillCategory Column.announce Category.ones emptyScores none = true := by
  rfl

/-- Claim C4 (amended): a cell of the announce column is fillable iff it is empty
and, when an announcement is outstanding, its category equals the announced
one; when no announcement is outstanding, any empty announce cell is
fillable. -/
theorem C4_announce_amended (scores : Scores) (cat : Category) (ann : Option Category) :
    canFillCategory Column.announce cat scores ann =
      ((scores Column.announce cat).isNone &&
        match ann with
        | some a => decide (cat = a)
        | none => true) := by
  cases hv : scores Column.announce cat with
  | none =>
    cases ann with
    | none => simp [canFillCategory, hasCategoryValue, hv]
    | some a => simp [canFillCategory, hasCategoryValue, hv]
  | some v =>
    cases ann with
    | none => simp [canFillCategory, hasCategoryValue, hv]
    | some a => simp [canFillCategory, hasCategoryValue, hv]

/-- Claim C9: a "down" (resp. "up") cell is fillable iff its category is the first
category without a value in the fixed forward (resp. reversed) sequence; in
particular every other empty cell of the column is not fillable and a filled
cell is never fillable. -/
theorem C9_sequential_columns (scores : Scores) (cat : Category) (ann : Option Category) :
    (canFillCategory Column.down cat scores ann = true ↔
      categoryOrder.find? (fun k => (scores Column.down k).isNone) = some cat) ∧
    (canFillCategory Column.up cat scores ann = true ↔
      categoryOrder.reverse.find? (fun k => (scores Column.up k).isNone) = some cat) := by
  have hop : ∀ cs : ColumnScores,
      (fun k => !hasCategoryValue cs k) = (fun k => (cs k).isNone) := by
    intro cs
    funext k
    cases h : cs k <;> simp [hasCategoryValue, h]
  constructor
  · cases hv : scores Column.down cat with
    | some v =>
      constructor
      · intro hcf
        simp [canFillCategory, hasCategoryValue, hv] at hcf
      · intro hfind
        have := List.find?_some hfind
        rw [hv] at this
        simp at this
    | none =>
      have hbranch := seqBranch_iff (fun k => !hasCategoryValue (scores Column.down) k) cat
        categoryOrder categoryOrder_nodup (mem_categoryOrder cat)
      rw [hop] at hbranch
      rw [← hbranch]
      simp [canFillCategory, hasCategoryValue, hv, sequentialOrders]
  · cases hv : scores Column.up cat with
    | some v =>
      constructor
      · intro hcf
        simp [canFillCategory, hasCategoryValue, hv] at hcf
      · intro hfind
        have := List.find?_some hfind
        rw [hv] at this
        simp at this
    | none =>
      have hbranch := seqBranch_iff (fun k => !hasCategoryValue (scores Column.up) k) cat
        categoryOrder.reverse (by decide) (by simpa using mem_categoryOrder cat)
      rw [hop] at hbranch
      rw [← hbranch]
      simp [canFillCategory, hasCategoryValue, hv, sequentialOrders]

/-- Source `findIdxO` returns the index of the first element satisfying `p`. -/
theorem findIdxO_eq_some_of {α : Type} (p : α → Bool) :
    ∀ (l : List α) (i : Nat) (hi : i < l.length),
      p (l.get ⟨i, hi⟩) = true →
      (∀ j (hj : j < i), p (l.get ⟨j, Nat.lt_trans hj hi⟩) = false) →
      findIdxO p l = some i := by
  intro l
  induction l with
  | nil => intro i hi; exact absurd hi (by simp)
  | cons x xs ih =>
    intro i hi hp hbefore
    cases i with
    | zero =>
      simp only [List.get] at hp
      simp [findIdxO, hp]
    | succ j =>
      have hx : p x = false := by
        have := hbefore 0 (Nat.succ_pos j)
        simpa using this
      have hj : j < xs.length := by simpa using Nat.lt_of_succ_lt_succ hi
      have hpj : p (xs.get ⟨j, hj⟩) = true := by simpa using hp
      have hbefore' : ∀ k (hk : k < j), p (xs.get ⟨k, Nat.lt_trans hk hj⟩) = false := by
        intro k hk
        have := hbefore (k + 1) (Nat.succ_lt_succ hk)
        simpa using this
      have := ih j hj hpj hbefore'
      simp [findIdxO, hx, this]

/-- Claim C2: for a non-empty ordered player list containing the current player,
`syncTurnEnd` advances the turn to the player at the next position (wrapping
from the last position to the first) and writes that player's dice state
reset to the defaults: dice `[1,2,3,4,5]`, all locks `false`, 3 rolls. -/
theorem C2_turn_advance (players : List PlayerRow) (cid : String) (i : Nat)
    (hi : i < players.length)
    (hcur : (players.get ⟨i, hi⟩).id = cid)
    (hnodup : (players.map PlayerRow.id).Nodup) :
    ∃ r, syncTurnEnd players cid = some r ∧
      ∃ hj : (i + 1) % players.length < players.length,
        r.nextPlayerId = (players.get ⟨(i + 1) % players.length, hj⟩).id ∧
        r.currentTurnWrite = r.nextPlayerId ∧
        r.stateWrite =
          { player_id := r.nextPlayerId
            dice_values := [1, 2, 3, 4, 5]
            dice_locked := [false, false, false, false, false]
            rolls_remaining := 3 } := by
  have hpos : 0 < players.length := Nat.lt_of_le_of_lt (Nat.zero_le i) hi
  have hne : players.isEmpty = false := by
    cases players with
    | nil => exact absurd hpos (by simp)
    | cons a l => rfl
  have hfind : findIdxO (fun p => decide (p.id = cid)) players = some i := by
    apply findIdxO_eq_some_of _ players i hi
    · simpa using hcur
    · intro j hj
      by_contra hcontra
      have hji : (players.get ⟨j, Nat.lt_trans hj hi⟩).id = cid := by
        simpa using hcontra
      have hmapj : (players.map PlayerRow.id).get
          ⟨j, by simpa using Nat.lt_trans hj hi⟩ = cid := by
        simpa using hji
      have hmapi : (players.map PlayerRow.id).get ⟨i, by simpa using hi⟩ = cid := by
        simpa using hcur
      have heq : (players.map PlayerRow.id).get ⟨j, by simpa using Nat.lt_trans hj hi⟩ =
          (players.map PlayerRow.id).get ⟨i, by simpa using hi⟩ := by
        rw [hmapj, hmapi]
      have := (List.Nodup.get_inj_iff hnodup).mp heq
      have hji' : j = i := by simpa using this
      exact absurd hji' (Nat.ne_of_lt hj)
  have hj : (i + 1) % players.length < players.length := Nat.mod_lt _ hpos
  have hget : players.getD ((i + 1) % players.length) ⟨"", 0⟩ =
      players.get ⟨(i + 1) % players.length, hj⟩ := by
    rw [List.getD_eq_getElem?_getD, List.getElem?_eq_getElem hj]
    rfl
  refine ⟨{ nextPlayerId := (players.get ⟨(i + 1) % players.length, hj⟩).id
            currentTurnWrite := (players.get ⟨(i + 1) % players.length, hj⟩).id
            stateWrite :=
              { player_id := (players.get ⟨(i + 1) % players.length, hj⟩).id
                dice_values := [1, 2, 3, 4, 5]
                dice_locked := [false, false, false, false, false]
                rolls_remaining := 3 } }, ?_, hj, rfl, rfl, rfl⟩
  simp only [syncTurnEnd, hne, Bool.false_eq_true, if_false, hfind, hget]

/-- Witness for C2: three players in turn order, the last one commits, the
turn wraps to the first player and that player's dice are reset. -/
theorem C2_turn_advance_witness :
    (let players : List PlayerRow := [⟨"a", 0⟩, ⟨"b", 1⟩, ⟨"c", 2⟩]
     ∃ r, syncTurnEnd players "c" = some r ∧
       ∃ hj : (2 + 1) % players.length < players.length,
         r.nextPlayerId = (players.get ⟨(2 + 1) % players.length, hj⟩).id ∧
         r.currentTurnWrite = r.nextPlayerId ∧
         r.stateWrite =
           { player_id := r.nextPlayerId
             dice_values := [1, 2, 3, 4, 5]
             dice_locked := [false, false, false, false, false]
             rolls_remaining := 3 }) :=
  C2_turn_advance [⟨"a", 0⟩, ⟨"b", 1⟩, ⟨"c", 2⟩] "c" 2 (by decide) (by simp)
    (by simp)

/-- Once the one-shot flag is set, `checkGameCompletion` is a strict no-op. -/
theorem checkGameCompletion_of_handled (m : MgrFlags) (pid : String) (host : Bool)
    (s : List GState) (h : m.gameCompletionHandled = true) :
    checkGameCompletion m pid host s = (m, [], false) := by
  simp [checkGameCompletion, h]

/-- Source `endGame` on a manager whose flag is unset always sets the flag. -/
theorem endGame_sets_flag (m : MgrFlags) (pid : String) (host : Bool)
    (s : List GState) (hm : m.gameCompletionHandled = false) :
    (endGame m pid host s).1.gameCompletionHandled = true := by
  unfold endGame showWinnerScreen
  rw [hm]
  by_cases h1 : m.gameResultsShown <;>
    by_cases h2 : (buildStandingsFromStates s).isEmpty <;>
      simp [h1, h2]

/-- If `checkGameCompletion` leaves the one-shot flag unset, it did nothing. -/
theorem checkGameCompletion_of_not_handled (m : MgrFlags) (pid : String) (host : Bool)
    (s : List GState) (h : (checkGameCompletion m pid host s).1.gameCompletionHandled = false) :
    checkGameCompletion m pid host s = (m, [], false) := by
  by_cases hm : m.gameCompletionHandled
  · exact checkGameCompletion_of_handled m pid host s hm
  · have hm' : m.gameCompletionHandled = false := by simpa using hm
    by_cases hempty : s.isEmpty
    · simp [checkGameCompletion, hm', hempty]
    · have hempty' : s.isEmpty = false := by simpa using hempty
      by_cases hall : s.all (fun st => isGameComplete st.scorecard)
      · exfalso
        have hflag : (checkGameCompletion m pid host s).1.gameCompletionHandled = true := by
          have : checkGameCompletion m pid host s = endGame m pid host s := by
            simp [checkGameCompletion, hm', hempty', hall]
          rw [this]
          exact endGame_sets_flag m pid host s hm'
        rw [h] at hflag
        exact Bool.false_ne_true hflag
      · have hall' : (s.all fun st => isGameComplete st.scorecard) = false := by
          simpa using hall
        simp [checkGameCompletion, hm', hempty', hall']

/-- With the one-shot flag set, a whole sequence of completion checks
announces nothing and leaves the flags unchanged. -/
theorem runCompletionChecks_of_handled (pid : String) (host : Bool) (m : MgrFlags)
    (h : m.gameCompletionHandled = true) :
    ∀ snaps : List (List GState), runCompletionChecks pid host m snaps = (m, 0) := by
  intro snaps
  induction snaps with
  | nil => rfl
  | cons s rest ih =>
    unfold runCompletionChecks
    rw [checkGameCompletion_of_handled m pid host s h]
    simp [ih]

/-- Every non-silent `checkGameCompletion` sets the one-shot flag. -/
theorem checkGameCompletion_announced_handled (m : MgrFlags) (pid : String) (host : Bool)
    (s : List GState)
    (h : ¬((checkGameCompletion m pid host s).2.1.isEmpty ∧
          (checkGameCompletion m pid host s).2.2 = false)) :
    (checkGameCompletion m pid host s).1.gameCompletionHandled = true := by
  by_cases hflag : (checkGameCompletion m pid host s).1.gameCompletionHandled
  · exact hflag
  · exfalso
    have := checkGameCompletion_of_not_handled m pid host s (by simpa using hflag)
    rw [this] at h
    simp at h

/-- Claim C6: the completion announcement is one-shot.  A manager whose
`gameCompletionHandled` flag is set treats both `checkGameCompletion` and
`endGame` as strict no-ops (no `completed` write, no results display, flags
unchanged), and over any sequence of completion checks — however many
overlapping notifications trigger them — at most one check announces the
completion. -/
theorem C6_completion_once (pid : String) (host : Bool) (m : MgrFlags)
    (snaps : List (List GState)) :
    (∀ s, m.gameCompletionHandled = true →
      checkGameCompletion m pid host s = (m, [], false)) ∧
    (∀ s, m.gameCompletionHandled = true → endGame m pid host s = (m, [], false)) ∧
    (runCompletionChecks pid host m snaps).2 ≤ 1 := by
  refine ⟨fun s h => checkGameCompletion_of_handled m pid host s h,
          fun s h => by simp [endGame, h], ?_⟩
  induction snaps generalizing m with
  | nil => simp [runCompletionChecks]
  | cons s rest ih =>
    unfold runCompletionChecks
    cases hflag : (checkGameCompletion m pid host s).1.gameCompletionHandled with
    | true =>
      rw [runCompletionChecks_of_handled pid host _ hflag rest]
      cases hb : ((checkGameCompletion m pid host s).2.1.isEmpty &&
          !(checkGameCompletion m pid host s).2.2) <;> simp [hb]
    | false =>
      have hr := checkGameCompletion_of_not_handled m pid host s hflag
      rw [hr]
      simpa using ih m

/-- Witness for C6: with the flag already set, a check against a fully
complete snapshot is still a no-op, and a two-notification sequence announces
nothing further. -/
theorem C6_completion_once_witness :
    (let m : MgrFlags := { gameCompletionHandled := true, gameResultsShown := true }
     checkGameCompletion m "p1" true [] = (m, [], false) ∧
       endGame m "p1" true [] = (m, [], false) ∧
       (runCompletionChecks "p1" true m [[], []]).2 ≤ 1) :=
  ⟨(C6_completion_once "p1" true ⟨true, true⟩ [[], []]).1 [] rfl,
   (C6_completion_once "p1" true ⟨true, true⟩ [[], []]).2.1 [] rfl,
   (C6_completion_once "p1" true ⟨true, true⟩ [[], []]).2.2⟩

/-- Claim C1: a score commit checks the key against the freshly fetched scorecard
snapshot; when the key is already present there it aborts with the
user-visible "already filled" alert and issues no write at all (in particular
no scorecard write and no turn-advance write), and the whole commit is
independent of the locally cached scorecard, which is never consulted. -/
theorem C1_commit_checks_fresh_snapshot (ctx : CommitCtx) (cat : Category)
    (col : Column) (v : Int)
    (hfilled : (scLookup ctx.remoteScorecard (col, cat)).isSome = true) :
    (syncScoreAndEndTurn ctx cat col v).alreadyFilledAlert = true ∧
    (syncScoreAndEndTurn ctx cat col v).writes = [] ∧
    (∀ cache : Scorecard,
      syncScoreAndEndTurn { ctx with localScorecard := cache } cat col v =
        syncScoreAndEndTurn ctx cat col v) := by
  refine ⟨?_, ?_, ?_⟩
  · simp [syncScoreAndEndTurn, hfilled]
  · simp [syncScoreAndEndTurn, hfilled]
  · intro cache
    rfl

/-- Witness for C1: the remote snapshot already holds `down_ones`, so a
second commit of that key aborts with no writes, whatever the local cache
says. -/
theorem C1_commit_checks_fresh_snapshot_witness :
    (let ctx : CommitCtx :=
      { playerId := "p1", isHost := true
        localScorecard := []
        remoteScorecard := [((Column.down, Category.ones), 3)]
        allStates := [], players := []
        flags := { gameCompletionHandled := false, gameResultsShown := false } }
     (syncScoreAndEndTurn ctx Category.ones Column.down 3).alreadyFilledAlert = true ∧
       (syncScoreAndEndTurn ctx Category.ones Column.down 3).writes = [] ∧
       (∀ cache : Scorecard,
         syncScoreAndEndTurn { ctx with localScorecard := cache }
             Category.ones Column.down 3 =
           syncScoreAndEndTurn ctx Category.ones Column.down 3)) :=
  C1_commit_checks_fresh_snapshot _ Category.ones Column.down 3 (by rfl)

/-- Claim C7: the presence loop never lets presence data decide the local player's
status: for the local player the verdict is exactly the locally tracked
connection status, and it is the same for any two presence id-sets, so a
presence echo (or its absence) cannot change it. -/
theorem C7_local_status_from_local_signals (ctx : PresenceCtx)
    (cache : Option ConnStatus) (ms : Option Int) (player : PresencePlayer)
    (hlocal : player.id = ctx.localPlayerId) :
    (∀ ids : List String,
      (presenceStatusForPlayer ctx ids cache ms player).1 = ctx.localConnectionStatus) ∧
    (∀ ids1 ids2 : List String,
      presenceStatusForPlayer ctx ids1 cache ms player =
        presenceStatusForPlayer ctx ids2 cache ms player) := by
  constructor
  · intro ids
    cases h : ctx.localConnectionStatus <;>
      simp [presenceStatusForPlayer, hlocal, h]
  · intro ids1 ids2
    simp [presenceStatusForPlayer, hlocal]

/-- Witness for C7: local player "p1", locally disconnected; the verdict is
"disconnected" both when the presence set contains "p1" and when it is
missing. -/
theorem C7_local_status_from_local_signals_witness :
    (let ctx : PresenceCtx :=
      { localPlayerId := "p1", localConnectionStatus := .disconnected
        realtimeHealthy := true, presenceDisconnectGraceMs := 2500
        connectionStaleThresholdMs := 12000, now := 100000 }
     let player : PresencePlayer :=
      { id := "p1", connection_status := some .connected, last_seen_at := some 99000 }
     (presenceStatusForPlayer ctx ["p1"] none none player).1 = .disconnected ∧
       (presenceStatusForPlayer ctx [] none none player).1 = .disconnected ∧
       presenceStatusForPlayer ctx ["p1"] none none player =
         presenceStatusForPlayer ctx [] none none player) :=
  ⟨(C7_local_status_from_local_signals _ none none _ rfl).1 ["p1"],
   (C7_local_status_from_local_signals _ none none _ rfl).1 [],
   (C7_local_status_from_local_signals _ none none _ rfl).2 ["p1"] []⟩

/-- Claim C8 counterexample: a remote player ("p2") missing from the presence set
for the first time (missing duration 0, far below the 2500 ms grace window)
on a healthy channel is nevertheless flipped from connected to disconnected,
because its durable `last_seen_at` timestamp is older than the 12000 ms
staleness threshold — refuting the claim that a flip requires the missing
duration to exceed the grace window. -/
theorem C8_counterexample :
    (let ctx : PresenceCtx :=
      { localPlayerId := "p1", localConnectionStatus := .connected
        realtimeHealthy := true, presenceDisconnectGraceMs := 2500
        connectionStaleThresholdMs := 12000, now := 100000 }
     let player : PresencePlayer :=
      { id := "p2", connection_status := some .connected, last_seen_at := some 0 }
     (presenceStatusForPlayer ctx [] (some .connected) none player).1 = .disconnected ∧
       (some ConnStatus.connected).getD .connected = .connected ∧
       ctx.now - (none : Option Int).getD ctx.now = 0 ∧
       (0 : Int) < ctx.presenceDisconnectGraceMs) := by
  refine ⟨?_, rfl, by decide, by decide⟩
  rfl

/-- Claim C8 (amended): a remote player absent from the presence set is flipped to
disconnected only when the realtime channel is healthy and either the
continuous missing duration has reached the grace window or the player's
durable last-seen timestamp is older than the staleness threshold; while the
channel is unhealthy the previous status is retained, and on a healthy
channel a player below the grace window with a fresh (or absent) last-seen
timestamp also retains the previous status. -/
theorem C8_disconnect_grace_amended (ctx : PresenceCtx) (ids : List String)
    (cache : Option ConnStatus) (ms : Option Int) (player : PresencePlayer)
    (hremote : player.id ≠ ctx.localPlayerId)
    (habsent : ids.contains player.id = false) :
    ((ctx.realtimeHealthy = false →
      (presenceStatusForPlayer ctx ids cache ms player).1 =
        cache.getD (player.connection_status.getD .connected)) ∧
    ((presenceStatusForPlayer ctx ids cache ms player).1 = .disconnected →
      cache.getD (player.connection_status.getD .connected) ≠ .disconnected →
      ctx.realtimeHealthy = true ∧
        (ctx.presenceDisconnectGraceMs ≤ ctx.now - ms.getD ctx.now ∨
         ∃ ls, player.last_seen_at = some ls ∧
           ctx.connectionStaleThresholdMs < ctx.now - ls)) ∧
    (ctx.realtimeHealthy = true →
      ctx.now - ms.getD ctx.now < ctx.presenceDisconnectGraceMs →
      (∀ ls, player.last_seen_at = some ls → ctx.now - ls ≤ ctx.connectionStaleThresholdMs) →
      (presenceStatusForPlayer ctx ids cache ms player).1 =
        cache.getD (player.connection_status.getD .connected))) := by
  have hid : ¬ player.id = ctx.localPlayerId := hremote
  have hmem : ¬ player.id ∈ ids := by
    intro hc
    have hb : ids.contains player.id = true := by
      simpa using hc
    rw [habsent] at hb
    exact Bool.false_ne_true hb
  refine ⟨?_, ?_, ?_⟩
  · intro hun
    cases h : cache.getD (player.connection_status.getD .connected) <;>
      simp [presenceStatusForPlayer, hid, hmem, hun, h]
  · intro hdis hcache
    by_cases hh : ctx.realtimeHealthy
    · refine ⟨hh, ?_⟩
      by_cases hgrace : ctx.presenceDisconnectGraceMs ≤ ctx.now - ms.getD ctx.now
      · exact Or.inl hgrace
      · right
        cases hls : player.last_seen_at with
        | none =>
          exfalso
          cases h : cache.getD (player.connection_status.getD .connected) with
          | connected =>
            rw [show (presenceStatusForPlayer ctx ids cache ms player).1 =
                ConnStatus.connected from by
              simp [presenceStatusForPlayer, hid, hmem, hh, hgrace, hls, h]] at hdis
            exact absurd hdis (by simp)
          | disconnected => exact hcache h
        | some ls =>
          refine ⟨ls, rfl, ?_⟩
          by_cases hstale : ctx.connectionStaleThresholdMs < ctx.now - ls
          · exact hstale
          · exfalso
            have hret : (presenceStatusForPlayer ctx ids cache ms player).1 =
                cache.getD (player.connection_status.getD .connected) := by
              cases h : cache.getD (player.connection_status.getD .connected) <;>
                simp [presenceStatusForPlayer, hid, hmem, hh, hgrace, hls, hstale, h]
            rw [hret] at hdis
            exact hcache hdis
    · have hun : ctx.realtimeHealthy = false := by simpa using hh
      have hret : (presenceStatusForPlayer ctx ids cache ms player).1 =
          cache.getD (player.connection_status.getD .connected) := by
        cases h : cache.getD (player.connection_status.getD .connected) <;>
          simp [presenceStatusForPlayer, hid, hmem, hun, h]
      exact absurd (hret ▸ hdis) hcache
  · intro hh hgrace hfresh
    have hgrace' : ¬ ctx.presenceDisconnectGraceMs ≤ ctx.now - ms.getD ctx.now :=
      not_le.mpr hgrace
    cases hls : player.last_seen_at with
    | none =>
      cases h : cache.getD (player.connection_status.getD .connected) <;>
        simp [presenceStatusForPlayer, hid, hmem, hh, hgrace', hls, h]
    | some ls =>
      have hstale : ¬ ctx.connectionStaleThresholdMs < ctx.now - ls :=
        not_lt.mpr (hfresh ls hls)
      cases h : cache.getD (player.connection_status.getD .connected) <;>
        simp [presenceStatusForPlayer, hid, hmem, hh, hgrace', hls, hstale, h]

/-- Witness for C8 (amended): an unhealthy channel retains the connected
status of a missing remote player, and on a healthy channel a freshly missing
player with a recent last-seen timestamp also keeps it. -/
theorem C8_disconnect_grace_amended_witness :
    (let ctxUnhealthy : PresenceCtx :=
      { localPlayerId := "p1", localConnectionStatus := .connected
        realtimeHealthy := false, presenceDisconnectGraceMs := 2500
        connectionStaleThresholdMs := 12000, now := 100000 }
     let player : PresencePlayer :=
      { id := "p2", connection_status := some .connected, last_seen_at := some 99000 }
     (presenceStatusForPlayer ctxUnhealthy [] (some .connected) none player).1 =
       (some ConnStatus.connected).getD (player.connection_status.getD .connected) ∧
     (presenceStatusForPlayer { ctxUnhealthy with realtimeHealthy := true } []
         (some .connected) none player).1 =
       (some ConnStatus.connected).getD (player.connection_status.getD .connected)) :=
  ⟨(C8_disconnect_grace_amended _ [] (some .connected) none _
      (by decide) (by decide)).1 rfl,
   (C8_disconnect_grace_amended _ [] (some .connected) none _
      (by decide) (by decide)).2.2 rfl (by decide)
      (fun ls hls => by
        simp only [Option.some_inj] at hls
        subst hls
        decide)⟩

/-! ## First-maximum characterisation of the standings sort (for C5) -/

/-- Fold step keeping the earliest element with the strictly greatest
measure. -/
def stepFirstMax (g : α → Int) : Option α → α → Option α
  | none, x => some x
  | some m, x => if g m < g x then some x else some m

/-- The earliest element of greatest measure, scanned left to right. -/
def firstMaxBy (g : α → Int) (l : List α) : Option α :=
  l.foldl (stepFirstMax g) none

theorem head?_insertByTotalDesc (x : Standing) (l : List Standing) :
    (insertByTotalDesc x l).head? = stepFirstMax Standing.total l.head? x := by
  cases l with
  | nil => rfl
  | cons y ys =>
    by_cases h : y.total < x.total
    · simp [insertByTotalDesc, stepFirstMax, h]
    · simp [insertByTotalDesc, stepFirstMax, h]

theorem sortByTotalDesc_append_singleton (l : List Standing) (x : Standing) :
    sortByTotalDesc (l ++ [x]) = insertByTotalDesc x (sortByTotalDesc l) := by
  simp [sortByTotalDesc, List.foldl_append]

theorem head?_sortByTotalDesc (l : List Standing) :
    (sortByTotalDesc l).head? = firstMaxBy Standing.total l := by
  induction l using List.reverseRecOn with
  | nil => rfl
  | append_singleton l x ih =>
    rw [sortByTotalDesc_append_singleton, head?_insertByTotalDesc, ih,
      firstMaxBy, firstMaxBy, List.foldl_append]
    rfl

theorem firstMaxBy_map {α β : Type} (f : α → β) (g : β → Int) (l : List α) :
    firstMaxBy g (l.map f) = (firstMaxBy (fun a => g (f a)) l).map f := by
  have haux : ∀ (l : List α) (acc : Option α),
      l.foldl (fun a x => stepFirstMax g a (f x)) (acc.map f) =
        (l.foldl (stepFirstMax (fun a => g (f a))) acc).map f := by
    intro l
    induction l with
    | nil => intro acc; rfl
    | cons x xs ih =>
      intro acc
      have hstep : stepFirstMax g (acc.map f) (f x) =
          (stepFirstMax (fun a => g (f a)) acc x).map f := by
        cases acc with
        | none => rfl
        | some m =>
          by_cases h : g (f m) < g (f x)
          · simp [stepFirstMax, h]
          · simp [stepFirstMax, h]
      simp only [List.foldl_cons, hstep]
      exact ih _
  rw [firstMaxBy, List.foldl_map]
  have := haux l none
  simpa using this

theorem firstMaxBy_spec {α : Type} (g : α → Int) (l : List α) :
    (l = [] ∧ firstMaxBy g l = none) ∨
    (∃ w l₁ l₂, firstMaxBy g l = some w ∧ l = l₁ ++ w :: l₂ ∧
      (∀ e ∈ l₁, g e < g w) ∧ (∀ e ∈ l, g e ≤ g w)) := by
  induction l using List.reverseRecOn with
  | nil => exact Or.inl ⟨rfl, rfl⟩
  | append_singleton l x ih =>
    have hfold : firstMaxBy g (l ++ [x]) = stepFirstMax g (firstMaxBy g l) x := by
      rw [firstMaxBy, firstMaxBy, List.foldl_append]
      rfl
    rcases ih with ⟨hl, hnone⟩ | ⟨w, l₁, l₂, hw, hdecomp, hpre, hmax⟩
    · subst hl
      refine Or.inr ⟨x, [], [], ?_, rfl, by simp, by simp⟩
      rw [hfold, hnone]
      rfl
    · by_cases hgx : g w < g x
      · refine Or.inr ⟨x, l, [], ?_, rfl, ?_, ?_⟩
        · rw [hfold, hw]
          simp [stepFirstMax, hgx]
        · intro e he
          exact lt_of_le_of_lt (hmax e he) hgx
        · intro e he
          rcases List.mem_append.mp he with he | he
          · exact le_of_lt (lt_of_le_of_lt (hmax e he) hgx)
          · rw [List.mem_singleton.mp he]
      · refine Or.inr ⟨w, l₁, l₂ ++ [x], ?_, ?_, hpre, ?_⟩
        · rw [hfold, hw]
          simp [stepFirstMax, hgx]
        · rw [hdecomp]
          simp
        · intro e he
          rcases List.mem_append.mp he with he | he
          · exact hmax e he
          · rw [List.mem_singleton.mp he]
            exact not_lt.mp hgx

/-- Claim C5: the head of the standings built from the fetched states (ordered
ascending by turn order) is a player with the greatest final-score total, and
among all players tied at that total it is the one with the least turn-order
index, because the descending sort is stable. -/
theorem C5_winner_first_in_turn_order (states : List GState) (hne : states ≠ [])
    (hord : states.Pairwise (fun a b => a.player_order < b.player_order)) :
    ∃ w ws, (buildStandingsFromStates states).head? = some w ∧
      ws ∈ states ∧ w = standingOfState ws ∧ w.id = ws.player_id ∧
      (∀ s ∈ states, (calculateFinalScore s.scorecard).total ≤
        (calculateFinalScore ws.scorecard).total) ∧
      (∀ s ∈ states,
        (calculateFinalScore s.scorecard).total =
            (calculateFinalScore ws.scorecard).total →
          ws.player_order ≤ s.player_order) := by
  have hhead : (buildStandingsFromStates states).head? =
      (firstMaxBy (fun st => (calculateFinalScore st.scorecard).total) states).map
        standingOfState := by
    rw [buildStandingsFromStates, head?_sortByTotalDesc,
      firstMaxBy_map standingOfState Standing.total states]
    rfl
  rcases firstMaxBy_spec (fun st => (calculateFinalScore st.scorecard).total) states with
    ⟨hl, _⟩ | ⟨w, l₁, l₂, hw, hdecomp, hpre, hmax⟩
  · exact absurd hl hne
  · refine ⟨standingOfState w, w, ?_, ?_, rfl, rfl, hmax, ?_⟩
    · rw [hhead, hw]
      rfl
    · rw [hdecomp]
      exact List.mem_append.mpr (Or.inr (List.mem_cons_self w l₂))
    · intro s hs htot
      rw [hdecomp] at hs hord
      rcases List.mem_append.mp hs with hs | hs
      · exact absurd htot (ne_of_lt (hpre s hs))
      · rcases List.mem_cons.mp hs with hs | hs
        · rw [hs]
        · have hwlt := ((List.pairwise_append.mp hord).2.1)
          have := (List.pairwise_cons.mp hwlt).1 s hs
          exact le_of_lt this

/-- Witness for C5: two players with identical (empty) scorecards tie at 0;
the winner is the first in turn order. -/
theorem C5_winner_first_in_turn_order_witness :
    (let states : List GState :=
      [{ player_id := "a", player_name := "A", player_order := 0, scorecard := [] },
       { player_id := "b", player_name := "B", player_order := 1, scorecard := [] }]
     ∃ w ws, (buildStandingsFromStates states).head? = some w ∧
       ws ∈ states ∧ w = standingOfState ws ∧ w.id = ws.player_id ∧
       (∀ s ∈ states, (calculateFinalScore s.scorecard).total ≤
         (calculateFinalScore ws.scorecard).total) ∧
       (∀ s ∈ states,
         (calculateFinalScore s.scorecard).total =
             (calculateFinalScore ws.scorecard).total →
           ws.player_order ≤ s.player_order)) :=
  C5_winner_first_in_turn_order _ (by simp)
    (List.Pairwise.cons (by simp [List.mem_singleton])
      (List.Pairwise.cons (by simp) List.Pairwise.nil))

end Yamb
